/-
Verification of the OSC2MIDI bridge (oscplease.py) against its
natural-language specification.

The development shallowly embeds the translation core of the program:
the OSC address codec (`run_midi_input` encoding, the regex decode in
`handle_osc_message`), the feedback history buffer (`sent_messages`,
`cleanup_sent_messages`, the `deque(maxlen=100)` append), the dispatcher
callback (`handle_osc_message`), playlist navigation (`skip_forward`,
`skip_back`, `play`), tempo handling (`change_tempo`, `reset_tempo`) and
the track-merge step of `_play_single_midi`.

Conventions: Python ints are `Int`/`Nat`; `time.time()` values and the
float `tempo_microseconds_per_beat` are exact rationals `ℚ`; Python
strings are `List Char`; exceptions are `Except PyErr`.
-/
import Mathlib

namespace OscPlease

/-! ## Decimal digits: Python `f"{n}"` formatting and `(\d+)` regex capture -/

/-- The character for a single decimal digit `d < 10` (`'0'` is code 48). -/
def digitChar (d : Nat) : Char := Char.ofNat (48 + d)

/-- Numeric value of a decimal digit character. -/
def digitVal (c : Char) : Nat := c.toNat - 48

/-- Decimal rendering of a natural number, most significant digit first;
models Python `f"{n}"` for a nonnegative int. -/
def natToDigits (n : Nat) : List Char :=
  if _h : n < 10 then [digitChar n]
  else natToDigits (n / 10) ++ [digitChar (n % 10)]
termination_by n
decreasing_by exact Nat.div_lt_self (by omega) (by omega)

/-- Greedy accumulation of a maximal run of decimal digits, as the regex
capture `(\d+)` does; returns the value and the unconsumed remainder. -/
def parseDigitsAux (acc : Nat) : List Char → Nat × List Char
  | [] => (acc, [])
  | c :: rest =>
    if c.isDigit then parseDigitsAux (acc * 10 + digitVal c) rest
    else (acc, c :: rest)

/-- `(\d+)`: at least one digit, consumed greedily. -/
def parseDigits (l : List Char) : Option (Nat × List Char) :=
  match l with
  | [] => none
  | c :: _ => if c.isDigit then some (parseDigitsAux 0 l) else none

/-! ## The MIDI message model (mido `Message`) -/

/-- The five channel-voice message types the bridge translates.
Field values are Python ints; mido validates their ranges at
construction time (see `midoValid`). -/
inductive MidiMsg
  | note_on (channel note velocity : Int)
  | note_off (channel note velocity : Int)
  | control_change (channel control value : Int)
  | aftertouch (channel value : Int)
  | pitchwheel (channel : Int) (pitch : Int)
deriving DecidableEq, Repr

/-- mido's `Message(...)` constructor validation: channel 0–15, 7-bit
data bytes, pitch bend in −8192..8191.  Constructing a message outside
these ranges raises (a `ValueError`). -/
def midoValid : MidiMsg → Bool
  | .note_on ch n v =>
      0 ≤ ch && ch ≤ 15 && 0 ≤ n && n ≤ 127 && 0 ≤ v && v ≤ 127
  | .note_off ch n v =>
      0 ≤ ch && ch ≤ 15 && 0 ≤ n && n ≤ 127 && 0 ≤ v && v ≤ 127
  | .control_change ch c v =>
      0 ≤ ch && ch ≤ 15 && 0 ≤ c && c ≤ 127 && 0 ≤ v && v ≤ 127
  | .aftertouch ch v =>
      0 ≤ ch && ch ≤ 15 && 0 ≤ v && v ≤ 127
  | .pitchwheel ch p =>
      0 ≤ ch && ch ≤ 15 && -8192 ≤ p && p ≤ 8191

/-! ## The OSC address codec -/

/-- The command part of a decoded OSC address:
`note | noff | cc(\d+) | pressure | pitch`. -/
inductive OscCmd
  | note
  | noff
  | cc (n : Nat)
  | pressure
  | pitch
deriving DecidableEq, Repr

/-- Matching of the command alternation
`(note|noff|cc(\d+)|pressure|pitch)` at the head of the remaining
characters; like `re.match`, trailing characters are permitted.
No alternative begins with a digit, so the greedy `(\d+)` for the
channel never needs to backtrack. -/
def matchCmd : List Char → Option OscCmd
  | 'n' :: 'o' :: 't' :: 'e' :: _ => some .note
  | 'n' :: 'o' :: 'f' :: 'f' :: _ => some .noff
  | 'c' :: 'c' :: rest => (parseDigits rest).map (fun p => OscCmd.cc p.1)
  | 'p' :: 'r' :: 'e' :: 's' :: 's' :: 'u' :: 'r' :: 'e' :: _ => some .pressure
  | 'p' :: 'i' :: 't' :: 'c' :: 'h' :: _ => some .pitch
  | _ => none

/-- `re.match(r"/ch(\d+)(note|noff|cc(\d+)|pressure|pitch)", address)`
together with `channel = int(match.group(1)) - 1`.  `re.match` anchors
at the start of the string only, so trailing characters are allowed. -/
def matchOscAddress (address : List Char) : Option (Int × OscCmd) :=
  match address with
  | '/' :: 'c' :: 'h' :: rest =>
    match parseDigits rest with
    | none => none
    | some (n, rest1) => (matchCmd rest1).map (fun c => ((n : Int) - 1, c))
  | _ => none

/-- Encoding of a MIDI message to an OSC (address, argument, kind) triple,
as `run_midi_input` does: `channel = msg.channel + 1`, then per type
`/ch{channel}note [note]`, `/ch{channel}noff [note]`,
`/ch{channel}cc{control} [value]`, `/ch{channel}pressure [value]`,
`/ch{channel}pitch [pitch]`; a `note_on` with velocity 0 is sent as
`noff`.  The third component is the kind string recorded in
`sent_messages`. -/
def encodeMidiToOsc : MidiMsg → List Char × Int × List Char
  | .note_on ch n v =>
    if 0 < v then
      ('/' :: 'c' :: 'h' :: natToDigits (ch + 1).toNat ++ ['n', 'o', 't', 'e'], n,
       ['n', 'o', 't', 'e', '_', 'o', 'n'])
    else
      ('/' :: 'c' :: 'h' :: natToDigits (ch + 1).toNat ++ ['n', 'o', 'f', 'f'], n,
       ['n', 'o', 't', 'e', '_', 'o', 'f', 'f'])
  | .note_off ch n _ =>
      ('/' :: 'c' :: 'h' :: natToDigits (ch + 1).toNat ++ ['n', 'o', 'f', 'f'], n,
       ['n', 'o', 't', 'e', '_', 'o', 'f', 'f'])
  | .control_change ch c v =>
      ('/' :: 'c' :: 'h' :: natToDigits (ch + 1).toNat ++ 'c' :: 'c' :: natToDigits c.toNat, v,
       ['c', 'o', 'n', 't', 'r', 'o', 'l', '_', 'c', 'h', 'a', 'n', 'g', 'e'])
  | .aftertouch ch v =>
      ('/' :: 'c' :: 'h' :: natToDigits (ch + 1).toNat ++ ['p', 'r', 'e', 's', 's', 'u', 'r', 'e'], v,
       ['a', 'f', 't', 'e', 'r', 't', 'o', 'u', 'c', 'h'])
  | .pitchwheel ch p =>
      ('/' :: 'c' :: 'h' :: natToDigits (ch + 1).toNat ++ ['p', 'i', 't', 'c', 'h'], p,
       ['p', 'i', 't', 'c', 'h', 'w', 'h', 'e', 'e', 'l'])

/-! ## OSC arguments and Python `int()` coercion -/

/-- An OSC argument as delivered by the python-osc dispatcher: either an
integer, or a string (a wrongly typed argument).  Float arguments are
outside the modeled value set. -/
inductive OscArg
  | ofInt (i : Int)
  | ofStr (s : List Char)
deriving DecidableEq, Repr

/-- The exceptions the modeled code can raise inside the
`handle_osc_message` try block; all are subclasses of `Exception` and
are caught by its `except Exception` handler. -/
inductive PyErr
  | indexError
  | valueError
  | attributeError
deriving DecidableEq, Repr

/-- Python whitespace stripped by `int(str)`. -/
def isPySpace (c : Char) : Bool :=
  c = ' ' || c = '\t' || c = '\n' || c = '\r' || c = '\x0b' || c = '\x0c'

/-- Digits of an int literal after the first one: decimal digits with
single underscores allowed between digits, optionally followed by
trailing whitespace. -/
def parseIntRest (acc : Nat) : List Char → Option Nat
  | [] => some acc
  | c :: rest =>
    if c.isDigit then parseIntRest (acc * 10 + digitVal c) rest
    else if c = '_' then
      match rest with
      | d :: rest1 =>
        if d.isDigit then parseIntRest (acc * 10 + digitVal d) rest1 else none
      | [] => none
    else if isPySpace c then (if rest.all isPySpace then some acc else none)
    else none

/-- CPython `int(s)` on a string: optional surrounding whitespace, an
optional sign, then at least one ASCII decimal digit (underscores
permitted singly between digits).  Non-ASCII digit forms are outside the
modeled character set.  `none` models a raised `ValueError`. -/
def parseIntLiteral (l : List Char) : Option Int :=
  let l1 := l.dropWhile isPySpace
  match l1 with
  | '+' :: l2 =>
    match l2 with
    | c :: rest => if c.isDigit then (parseIntRest (digitVal c) rest).map (fun n => (n : Int)) else none
    | [] => none
  | '-' :: l2 =>
    match l2 with
    | c :: rest => if c.isDigit then (parseIntRest (digitVal c) rest).map (fun n => -(n : Int)) else none
    | [] => none
  | c :: rest => if c.isDigit then (parseIntRest (digitVal c) rest).map (fun n => (n : Int)) else none
  | [] => none

/-- Python `int(a)` on an OSC argument. -/
def pyInt : OscArg → Except PyErr Int
  | .ofInt i => .ok i
  | .ofStr s =>
    match parseIntLiteral s with
    | some i => .ok i
    | none => .error .valueError

/-- `int(args[0])`: indexing an empty argument tuple raises
`IndexError`, then the value is coerced with `int()`. -/
def intArg0 : List OscArg → Except PyErr Int
  | [] => .error .indexError
  | a :: _ => pyInt a

/-- mido `Message(...)` construction: returns the message or raises. -/
def mkMessage (m : MidiMsg) : Except PyErr MidiMsg :=
  if midoValid m then .ok m else .error .valueError

/-- The message-building part of each `handle_osc_message` branch:
`note` builds `note_on` with the constant velocity 100, `noff` builds
`note_off` with velocity 0, `cc{n}` takes the controller number from the
address and the value from the argument, `pressure` and `pitch` map to
`aftertouch` and `pitchwheel`.  Evaluation order follows the source:
`args[0]` is read and coerced before the `Message` is constructed. -/
def buildMidi (ch : Int) (cmd : OscCmd) (args : List OscArg) : Except PyErr MidiMsg :=
  match cmd with
  | .note => do
    let n ← intArg0 args
    mkMessage (.note_on ch n 100)
  | .noff => do
    let n ← intArg0 args
    mkMessage (.note_off ch n 0)
  | .cc c => do
    let v ← intArg0 args
    mkMessage (.control_change ch (c : Int) v)
  | .pressure => do
    let v ← intArg0 args
    mkMessage (.aftertouch ch v)
  | .pitch => do
    let p ← intArg0 args
    mkMessage (.pitchwheel ch p)

/-- `self.midi_out.send(message)`: if the MIDI output handle is `None`
(not open), attribute access raises; otherwise the message goes out. -/
def buildAndSend (midiOutOpen : Bool) (ch : Int) (cmd : OscCmd) (args : List OscArg) :
    Except PyErr MidiMsg := do
  let m ← buildMidi ch cmd args
  if midiOutOpen then pure m else throw .attributeError

/-- The pure decode half of the codec: the regex match of
`handle_osc_message` followed by argument coercion and `Message`
construction; `none` is the explicit unrecognized/dropped outcome. -/
def decodeOscToMidi (address : List Char) (args : List OscArg) : Option MidiMsg :=
  match matchOscAddress address with
  | none => none
  | some (ch, cmd) => (buildMidi ch cmd args).toOption

/-! ## Track events and MIDI files (mido `MidiFile`) -/

/-- The body of one track message: a channel-voice message, a
`set_tempo` meta message (microseconds per beat), or some other meta
message (consumed for bookkeeping only). -/
inductive TrackMsg
  | channelMsg (m : MidiMsg)
  | setTempo (tempo : Nat)
  | otherMeta
deriving DecidableEq, Repr

/-- One entry of a MIDI track: a delta time in ticks and the message. -/
structure TrackEvent where
  time : Nat
  body : TrackMsg
deriving DecidableEq, Repr

/-- A parsed MIDI file: `ticks_per_beat` header value and the tracks. -/
structure MidiFileData where
  ticks_per_beat : Nat
  tracks : List (List TrackEvent)
deriving DecidableEq, Repr

/-! ## The history buffer (`sent_messages`, a `deque(maxlen=100)`) -/

/-- One record of the feedback history buffer: the tuple
`(address, args, kind, time.time())` appended after each send. -/
structure SentRecord where
  address : List Char
  args : List OscArg
  kind : List Char
  emittedAt : ℚ
deriving DecidableEq, Repr

/-- The eviction loop shared by `cleanup_sent_messages` (the periodic
50 ms timer sweep) and the inline sweep at the top of
`handle_osc_message`:
`while self.sent_messages and (now - self.sent_messages[0][3] > 0.1): popleft()`.
The buffer is listed oldest first, so the loop is a `dropWhile`. -/
def cleanupAt (now : ℚ) (buf : List SentRecord) : List SentRecord :=
  buf.dropWhile (fun r => decide ((1 : ℚ) / 10 < now - r.emittedAt))

/-- Appending to `deque(maxlen=100)`: when the deque is full the oldest
(leftmost) entry is discarded to make room. -/
def dequeAppend (buf : List SentRecord) (r : SentRecord) : List SentRecord :=
  if buf.length < 100 then buf ++ [r] else buf.drop 1 ++ [r]

/-! ## Application state -/

/-- The mutable session state of `OSCMIDIApp` that the core logic
touches.  The playlist holds parsed file contents (the path indirection
and file I/O are presentation glue); `midi_out_open` is whether
`self.midi_out` is a live handle rather than `None`. -/
structure AppState where
  playing : Bool
  looping : Bool
  tempo : Int
  tempo_microseconds_per_beat : ℚ
  paused : Bool
  request_stop : Bool
  midi_playlist : List MidiFileData
  current_playlist_index : Int
  sent_messages : List SentRecord
  midi_out_open : Bool
deriving DecidableEq, Repr

/-- The state fields as initialised in `__init__`. -/
def initialState : AppState :=
  { playing := false
    looping := false
    tempo := 120
    tempo_microseconds_per_beat := 500000
    paused := false
    request_stop := false
    midi_playlist := []
    current_playlist_index := 0
    sent_messages := []
    midi_out_open := false }

/-! ## The dispatcher callback `handle_osc_message` -/

/-- The observable outcome of one `handle_osc_message` call: the address
did not match the regex (logged `Invalid OSC address`, dropped); the
pause flag was set (silent drop); a MIDI message was sent and recorded;
or an exception inside the try block was caught and logged
(`Error handling OSC message`), dropping the message.  The
`Unhandled OSC command` branch of the source is unreachable: a match
always yields one of the five commands. -/
inductive HandleOutcome
  | invalidAddress
  | droppedPaused
  | sent (m : MidiMsg)
  | errorCaught (e : PyErr)
deriving DecidableEq, Repr

/-- `handle_osc_message(address, *args)` at clock reading `now`:
prune the history buffer, match the address; on a match, drop if
paused, otherwise build the MIDI message, send it, and append a
`SentRecord` — any exception is caught, leaving the state with only the
prune applied.  Returns the new state and the outcome. -/
def handle_osc_message (s : AppState) (address : List Char) (args : List OscArg) (now : ℚ) :
    AppState × HandleOutcome :=
  let s1 := { s with sent_messages := cleanupAt now s.sent_messages }
  match matchOscAddress address with
  | none => (s1, .invalidAddress)
  | some (ch, cmd) =>
    if s1.paused then (s1, .droppedPaused)
    else
      match buildAndSend s1.midi_out_open ch cmd args with
      | .error e => (s1, .errorCaught e)
      | .ok m =>
        let newRec : SentRecord :=
          { address := address, args := args, kind := (encodeMidiToOsc m).2.2, emittedAt := now }
        ({ s1 with sent_messages := dequeAppend s1.sent_messages newRec }, .sent m)

/-! ## Tempo (`change_tempo`, `update_tempo_display`, `reset_tempo`) -/

/-- `change_tempo(new_tempo)`: rejected if `new_tempo <= 0`, otherwise
sets the BPM and `tempo_microseconds_per_beat = 60000000 / new_tempo`
(Python true division, modeled exactly in ℚ). -/
def change_tempo (s : AppState) (new_tempo : Int) : AppState :=
  if new_tempo ≤ 0 then s
  else { s with tempo := new_tempo,
                tempo_microseconds_per_beat := 60000000 / (new_tempo : ℚ) }

/-- `update_tempo_display(value)`: updates the BPM label and delegates
to `change_tempo`. -/
def update_tempo_display (s : AppState) (value : Int) : AppState :=
  change_tempo s value

/-- The inner loop of `reset_tempo`: scan one track for the first
`set_tempo` message. -/
def findTempoInTrack : List TrackEvent → Option Nat
  | [] => none
  | e :: rest =>
    match e.body with
    | .setTempo t => some t
    | _ => findTempoInTrack rest

/-- The nested loop of `reset_tempo` with its `tempo_found` flag and
`break`s: the first `set_tempo` in track order over the whole file. -/
def findFirstTempo : List (List TrackEvent) → Option Nat
  | [] => none
  | tr :: rest =>
    match findTempoInTrack tr with
    | some t => some t
    | none => findFirstTempo rest

/-- `reset_tempo()`: with a non-empty playlist, scan the first file; on
the first `set_tempo` adopt its microseconds-per-beat and the derived
BPM `int(60000000 / tempo)`; if the file has none, default to 120 BPM /
500000 µs per beat; with an empty playlist only a log line is produced.
A `set_tempo` value of 0 makes the BPM division raise after the
µs-per-beat assignment already happened; the exception is caught by the
surrounding handler, so only the first assignment survives. -/
def reset_tempo (s : AppState) : AppState :=
  match s.midi_playlist with
  | [] => s
  | f :: _ =>
    match findFirstTempo f.tracks with
    | some t =>
      if t = 0 then { s with tempo_microseconds_per_beat := (t : ℚ) }
      else { s with tempo_microseconds_per_beat := (t : ℚ),
                    tempo := ((60000000 / t : Nat) : Int) }
    | none => { s with tempo := 120, tempo_microseconds_per_beat := 500000 }

/-- Modelled from the spec (§4.5 "Reset tempo" / claim wording): the
microseconds-per-beat of the first tempo meta-event of the file in track
order, i.e. the head of the `set_tempo` values of the concatenated
tracks.  Compared against the source-level `findFirstTempo`. -/
def firstTempoSpec (tracks : List (List TrackEvent)) : Option Nat :=
  (tracks.flatten.filterMap (fun e =>
    match e.body with
    | .setTempo t => some t
    | _ => none)).head?

/-! ## Playlist navigation (`play`, `skip_forward`, `skip_back`) -/

/-- `play()`: with a non-empty playlist and playback not already in
progress, set `playing`, clear `request_stop` and start the player
thread. -/
def play (s : AppState) : AppState :=
  if s.midi_playlist.isEmpty then s
  else if s.playing then s
  else { s with playing := true, request_stop := false }

/-- `skip_forward()`: with a non-empty playlist, signal the player to
stop, join it, advance
`current_playlist_index = (index + 1) % len(playlist)` (Python `%` on a
positive modulus is Euclidean) and restart playback via `play()`. -/
def skip_forward (s : AppState) : AppState :=
  if s.midi_playlist.isEmpty then s
  else
    play { s with request_stop := true, playing := false, paused := false,
                  current_playlist_index :=
                    (s.current_playlist_index + 1) % (s.midi_playlist.length : Int) }

/-- `skip_back()`: as `skip_forward` but with
`current_playlist_index = (index - 1) % len(playlist)`. -/
def skip_back (s : AppState) : AppState :=
  if s.midi_playlist.isEmpty then s
  else
    play { s with request_stop := true, playing := false, paused := false,
                  current_playlist_index :=
                    (s.current_playlist_index - 1) % (s.midi_playlist.length : Int) }

/-! ## The track merge step of `_play_single_midi` -/

/-- Per-track accumulation of absolute tick times:
`abs_time += msg.time; messages.append((abs_time, msg))`. -/
def trackAbsTimes (absTime : Nat) : List TrackEvent → List (Nat × TrackMsg)
  | [] => []
  | e :: rest => (absTime + e.time, e.body) :: trackAbsTimes (absTime + e.time) rest

/-- The flat message list before sorting: every track's absolute-time
pairs, in track encounter order. -/
def collectMessages (tracks : List (List TrackEvent)) : List (Nat × TrackMsg) :=
  (tracks.map (trackAbsTimes 0)).flatten

/-- The key order of `messages.sort(key=lambda x: x[0])`. -/
def tickLE (a b : Nat × TrackMsg) : Prop := a.1 ≤ b.1

instance : DecidableRel tickLE := fun a b => inferInstanceAs (Decidable (a.1 ≤ b.1))

instance : IsTotal (Nat × TrackMsg) tickLE := ⟨fun a b => Nat.le_total a.1 b.1⟩

instance : IsTrans (Nat × TrackMsg) tickLE := ⟨fun _ _ _ => Nat.le_trans⟩

/-- The merge step of `_play_single_midi`: collect all tracks' events
with absolute tick times and sort them by tick.  Python `list.sort` is
a stable sort; it is modeled by the stable `List.insertionSort`. -/
def mergeTracks (tracks : List (List TrackEvent)) : List (Nat × TrackMsg) :=
  List.insertionSort tickLE (collectMessages tracks)

/-! ## Lemmas: decimal formatting is inverted by the greedy digit parse -/

/-- A character list that does not begin with a decimal digit (so a
greedy digit run stops in front of it). -/
def noLeadDigit : List Char → Bool
  | [] => true
  | c :: _ => !c.isDigit

theorem isDigit_digitChar {d : Nat} (h : d < 10) : (digitChar d).isDigit = true := by
  interval_cases d <;> decide

theorem digitVal_digitChar {d : Nat} (h : d < 10) : digitVal (digitChar d) = d := by
  interval_cases d <;> decide

theorem natToDigits_head_digit (n : Nat) :
    ∃ c r, natToDigits n = c :: r ∧ c.isDigit = true := by
  induction n using Nat.strong_induction_on with
  | _ n ih =>
    by_cases h : n < 10
    · exact ⟨digitChar n, [], by rw [natToDigits, dif_pos h], isDigit_digitChar h⟩
    · obtain ⟨c, r, hc, hd⟩ := ih (n / 10) (Nat.div_lt_self (by omega) (by omega))
      refine ⟨c, r ++ [digitChar (n % 10)], ?_, hd⟩
      rw [natToDigits, dif_neg h, hc]
      simp

theorem parseDigitsAux_stop (acc : Nat) {rest : List Char} (h : noLeadDigit rest = true) :
    parseDigitsAux acc rest = (acc, rest) := by
  cases rest with
  | nil => rfl
  | cons c r =>
    simp only [noLeadDigit, Bool.not_eq_true'] at h
    simp [parseDigitsAux, h]

theorem parseDigitsAux_natToDigits (n : Nat) :
    ∀ acc rest, parseDigitsAux acc (natToDigits n ++ rest)
      = parseDigitsAux (acc * 10 ^ (natToDigits n).length + n) rest := by
  induction n using Nat.strong_induction_on with
  | _ n ih =>
    intro acc rest
    by_cases h : n < 10
    · rw [natToDigits, dif_pos h]
      simp [parseDigitsAux, isDigit_digitChar h, digitVal_digitChar h]
    · have hlt : n / 10 < n := Nat.div_lt_self (by omega) (by omega)
      have hmod : n % 10 < 10 := Nat.mod_lt _ (by omega)
      rw [natToDigits, dif_neg h, List.append_assoc, List.singleton_append,
        ih (n / 10) hlt acc (digitChar (n % 10) :: rest)]
      simp only [parseDigitsAux, isDigit_digitChar hmod, if_true,
        digitVal_digitChar hmod, List.length_append, List.length_singleton]
      have hpow : acc * 10 ^ ((natToDigits (n / 10)).length + 1)
          = acc * 10 ^ (natToDigits (n / 10)).length * 10 := by ring
      rw [hpow]
      have harith : (acc * 10 ^ (natToDigits (n / 10)).length + n / 10) * 10 + n % 10
          = acc * 10 ^ (natToDigits (n / 10)).length * 10 + n := by
        generalize acc * 10 ^ (natToDigits (n / 10)).length = A
        omega
      rw [harith]

theorem parseDigits_natToDigits (n : Nat) {rest : List Char} (h : noLeadDigit rest = true) :
    parseDigits (natToDigits n ++ rest) = some (n, rest) := by
  obtain ⟨c, r, hc, hd⟩ := natToDigits_head_digit n
  rw [hc, List.cons_append, parseDigits, hd]
  simp only [if_true, ← List.cons_append, ← hc, parseDigitsAux_natToDigits,
    Nat.zero_mul, Nat.zero_add, parseDigitsAux_stop _ h]

/-! ## Reduction lemmas for the address matcher and the try-block -/

theorem matchCmd_note (t : List Char) : matchCmd ('n' :: 'o' :: 't' :: 'e' :: t) = some .note := rfl

theorem matchCmd_noff (t : List Char) : matchCmd ('n' :: 'o' :: 'f' :: 'f' :: t) = some .noff := rfl

theorem matchCmd_cc (t : List Char) :
    matchCmd ('c' :: 'c' :: t) = (parseDigits t).map (fun p => OscCmd.cc p.1) := rfl

theorem matchCmd_pressure (t : List Char) :
    matchCmd ('p' :: 'r' :: 'e' :: 's' :: 's' :: 'u' :: 'r' :: 'e' :: t) = some .pressure := rfl

theorem matchCmd_pitch (t : List Char) :
    matchCmd ('p' :: 'i' :: 't' :: 'c' :: 'h' :: t) = some .pitch := rfl

theorem matchOscAddress_eq (l : List Char) (k : Nat) (rest1 : List Char)
    (hp : parseDigits l = some (k, rest1)) :
    matchOscAddress ('/' :: 'c' :: 'h' :: l)
      = (matchCmd rest1).map (fun c => ((k : Int) - 1, c)) := by
  have h0 : matchOscAddress ('/' :: 'c' :: 'h' :: l)
      = match parseDigits l with
        | none => none
        | some (n, r) => (matchCmd r).map (fun c => ((n : Int) - 1, c)) := rfl
  rw [h0, hp]

theorem except_bind_ok {ε α β : Type} (a : α) (f : α → Except ε β) :
    (Except.ok a : Except ε α) >>= f = f a := rfl

theorem except_bind_error {ε α β : Type} (e : ε) (f : α → Except ε β) :
    (Except.error e : Except ε α) >>= f = Except.error e := rfl

theorem decodeOscToMidi_matched {a : List Char} {ch : Int} {cmd : OscCmd} (args : List OscArg)
    (h : matchOscAddress a = some (ch, cmd)) :
    decodeOscToMidi a args = (buildMidi ch cmd args).toOption := by
  simp [decodeOscToMidi, h]

/-! ## C1: encode/decode round trip -/

/-- The event an exact decode of an encoded event reconstructs.  The
note/value/pitch payload, the kind and the channel are those of the
original event; only the velocity is normalized: the decoder emits
`note_on` with the fixed velocity 100 and `note_off` with velocity 0,
and a `note_on` with velocity 0 travels as `noff` (the spec's
NoteOn-with-zero-velocity convention). -/
def canonicalEvent : MidiMsg → MidiMsg
  | .note_on ch n v => if 0 < v then .note_on ch n 100 else .note_off ch n 0
  | .note_off ch n _ => .note_off ch n 0
  | m => m

/-- C1: for every valid MIDI event (channel 0–15, payload in range),
decoding the OSC message produced by encoding the event reconstructs the
equivalent event: the address parse recovers the channel via the
1-indexed→0-indexed mapping (`encode` writes `ch{channel+1}`, `decode`
computes `parsed − 1`), and the note/value/pitch payload carried in the
single argument is preserved. -/
theorem claim_C1_encode_decode_roundtrip (m : MidiMsg) (hv : midoValid m = true) :
    decodeOscToMidi (encodeMidiToOsc m).1 [OscArg.ofInt (encodeMidiToOsc m).2.1]
      = some (canonicalEvent m) := by
  cases m with
  | note_on ch n v =>
    simp only [midoValid, Bool.and_eq_true, decide_eq_true_eq] at hv
    have hch : (((ch + 1).toNat : Int) - 1) = ch := by omega
    by_cases hv0 : 0 < v
    · have haddr : matchOscAddress
          ('/' :: 'c' :: 'h' :: (natToDigits (ch + 1).toNat ++ ['n', 'o', 't', 'e']))
          = some (ch, .note) := by
        rw [matchOscAddress_eq _ _ _ (parseDigits_natToDigits _ (show noLeadDigit ['n', 'o', 't', 'e'] = true from rfl)),
          matchCmd_note,
          Option.map, hch]
      simp only [encodeMidiToOsc, if_pos hv0, List.cons_append]
      rw [decodeOscToMidi_matched _ haddr]
      have hok : midoValid (.note_on ch n 100) = true := by
        simp only [midoValid, Bool.and_eq_true, decide_eq_true_eq]; omega
      simp [buildMidi, intArg0, pyInt, except_bind_ok, mkMessage, hok, Except.toOption,
        canonicalEvent, hv0]
    · have haddr : matchOscAddress
          ('/' :: 'c' :: 'h' :: (natToDigits (ch + 1).toNat ++ ['n', 'o', 'f', 'f']))
          = some (ch, .noff) := by
        rw [matchOscAddress_eq _ _ _ (parseDigits_natToDigits _ (show noLeadDigit ['n', 'o', 'f', 'f'] = true from rfl)),
          matchCmd_noff,
          Option.map, hch]
      simp only [encodeMidiToOsc, if_neg hv0, List.cons_append]
      rw [decodeOscToMidi_matched _ haddr]
      have hok : midoValid (.note_off ch n 0) = true := by
        simp only [midoValid, Bool.and_eq_true, decide_eq_true_eq]; omega
      simp [buildMidi, intArg0, pyInt, except_bind_ok, mkMessage, hok, Except.toOption,
        canonicalEvent, hv0]
  | note_off ch n v =>
    simp only [midoValid, Bool.and_eq_true, decide_eq_true_eq] at hv
    have hch : (((ch + 1).toNat : Int) - 1) = ch := by omega
    have haddr : matchOscAddress
        ('/' :: 'c' :: 'h' :: (natToDigits (ch + 1).toNat ++ ['n', 'o', 'f', 'f']))
        = some (ch, .noff) := by
      rw [matchOscAddress_eq _ _ _ (parseDigits_natToDigits _ (show noLeadDigit ['n', 'o', 'f', 'f'] = true from rfl)),
          matchCmd_noff,
        Option.map, hch]
    simp only [encodeMidiToOsc, List.cons_append]
    rw [decodeOscToMidi_matched _ haddr]
    have hok : midoValid (.note_off ch n 0) = true := by
      simp only [midoValid, Bool.and_eq_true, decide_eq_true_eq]; omega
    simp [buildMidi, intArg0, pyInt, except_bind_ok, mkMessage, hok, Except.toOption,
      canonicalEvent]
  | control_change ch c v =>
    simp only [midoValid, Bool.and_eq_true, decide_eq_true_eq] at hv
    have hch : (((ch + 1).toNat : Int) - 1) = ch := by omega
    have hcc : parseDigits (natToDigits c.toNat) = some (c.toNat, []) := by
      rw [← List.append_nil (natToDigits c.toNat)]
      exact parseDigits_natToDigits _ (show noLeadDigit ([] : List Char) = true from rfl)
    have haddr : matchOscAddress
        ('/' :: 'c' :: 'h' :: (natToDigits (ch + 1).toNat ++ 'c' :: 'c' :: natToDigits c.toNat))
        = some (ch, .cc c.toNat) := by
      rw [matchOscAddress_eq _ _ _ (parseDigits_natToDigits _ (show noLeadDigit ('c' :: 'c' :: natToDigits c.toNat) = true from rfl)),
        matchCmd_cc, hcc,
        Option.map, Option.map, hch]
    simp only [encodeMidiToOsc, List.cons_append]
    rw [decodeOscToMidi_matched _ haddr]
    have hok : midoValid (.control_change ch c v) = true := by
      simp only [midoValid, Bool.and_eq_true, decide_eq_true_eq]; omega
    have hcInt : ((c.toNat : Nat) : Int) = c := Int.toNat_of_nonneg (by omega)
    simp [buildMidi, intArg0, pyInt, except_bind_ok, mkMessage, hcInt, hok, Except.toOption,
      canonicalEvent]
  | aftertouch ch v =>
    simp only [midoValid, Bool.and_eq_true, decide_eq_true_eq] at hv
    have hch : (((ch + 1).toNat : Int) - 1) = ch := by omega
    have haddr : matchOscAddress
        ('/' :: 'c' :: 'h' ::
          (natToDigits (ch + 1).toNat ++ ['p', 'r', 'e', 's', 's', 'u', 'r', 'e']))
        = some (ch, .pressure) := by
      rw [matchOscAddress_eq _ _ _ (parseDigits_natToDigits _ (show noLeadDigit ['p', 'r', 'e', 's', 's', 'u', 'r', 'e'] = true from rfl)),
        matchCmd_pressure,
        Option.map, hch]
    simp only [encodeMidiToOsc, List.cons_append]
    rw [decodeOscToMidi_matched _ haddr]
    have hok : midoValid (.aftertouch ch v) = true := by
      simp only [midoValid, Bool.and_eq_true, decide_eq_true_eq]; omega
    simp [buildMidi, intArg0, pyInt, except_bind_ok, mkMessage, hok, Except.toOption,
      canonicalEvent]
  | pitchwheel ch p =>
    simp only [midoValid, Bool.and_eq_true, decide_eq_true_eq] at hv
    have hch : (((ch + 1).toNat : Int) - 1) = ch := by omega
    have haddr : matchOscAddress
        ('/' :: 'c' :: 'h' :: (natToDigits (ch + 1).toNat ++ ['p', 'i', 't', 'c', 'h']))
        = some (ch, .pitch) := by
      rw [matchOscAddress_eq _ _ _ (parseDigits_natToDigits _ (show noLeadDigit ['p', 'i', 't', 'c', 'h'] = true from rfl)),
        matchCmd_pitch,
        Option.map, hch]
    simp only [encodeMidiToOsc, List.cons_append]
    rw [decodeOscToMidi_matched _ haddr]
    have hok : midoValid (.pitchwheel ch p) = true := by
      simp only [midoValid, Bool.and_eq_true, decide_eq_true_eq]; omega
    simp [buildMidi, intArg0, pyInt, except_bind_ok, mkMessage, hok, Except.toOption,
      canonicalEvent]

/-- Concrete instance of C1: a `note_on` on channel 0, note 60,
velocity 100 round-trips through `/ch1note [60]`. -/
theorem claim_C1_encode_decode_roundtrip_witness :
    midoValid (.note_on 0 60 100) = true ∧
    decodeOscToMidi (encodeMidiToOsc (.note_on 0 60 100)).1
        [OscArg.ofInt (encodeMidiToOsc (.note_on 0 60 100)).2.1]
      = some (canonicalEvent (.note_on 0 60 100)) :=
  ⟨by decide, claim_C1_encode_decode_roundtrip (.note_on 0 60 100) (by decide)⟩

/-! ## C9: tempo arithmetic -/

/-- C9: `change_tempo` maintains
`microsecondsPerBeat = 60000000 / beatsPerMinute`: 120 BPM yields
500000 µs/beat, 60 BPM yields 1000000 µs/beat, and for every BPM in
20..420 the round trip BPM → µs/beat → BPM recovers the original value
(exactly, in the exact-rational model, hence within any rounding
tolerance). -/
theorem claim_C9_tempo_division (s : AppState) (b : Int) (h20 : 20 ≤ b) (h420 : b ≤ 420) :
    (change_tempo s b).tempo_microseconds_per_beat = 60000000 / (b : ℚ)
    ∧ 60000000 / (change_tempo s b).tempo_microseconds_per_beat = (b : ℚ)
    ∧ (change_tempo s 120).tempo_microseconds_per_beat = 500000
    ∧ (change_tempo s 60).tempo_microseconds_per_beat = 1000000 := by
  have hb : ¬ b ≤ 0 := by omega
  have hbq : (b : ℚ) ≠ 0 := by
    simpa using show b ≠ 0 by omega
  refine ⟨by simp [change_tempo, hb], ?_, by norm_num [change_tempo], by norm_num [change_tempo]⟩
  simp only [change_tempo, if_neg hb]
  field_simp

/-- Concrete instance of C9 at 120 BPM. -/
theorem claim_C9_tempo_division_witness :
    (20 ≤ (120 : Int) ∧ (120 : Int) ≤ 420)
    ∧ (change_tempo initialState 120).tempo_microseconds_per_beat = 60000000 / ((120 : Int) : ℚ) :=
  ⟨⟨by norm_num, by norm_num⟩,
    (claim_C9_tempo_division initialState 120 (by norm_num) (by norm_num)).1⟩

/-! ## C7: playlist skip wraps modulo the playlist length -/

/-- C7: for a playlist of length K ≥ 1, `skip_forward` taken at index
K−1 wraps to index 0, and `skip_back` taken at index 0 wraps to index
K−1 (Python `%` with a positive modulus is Euclidean `emod`); in both
cases playback is restarted (`playing` set, `request_stop` cleared) from
the new index. -/
theorem claim_C7_skip_wraparound (s : AppState) (h : s.midi_playlist ≠ []) :
    (s.current_playlist_index = (s.midi_playlist.length : Int) - 1 →
      (skip_forward s).current_playlist_index = 0
      ∧ (skip_forward s).playing = true ∧ (skip_forward s).request_stop = false)
    ∧ (s.current_playlist_index = 0 →
      (skip_back s).current_playlist_index = (s.midi_playlist.length : Int) - 1
      ∧ (skip_back s).playing = true ∧ (skip_back s).request_stop = false) := by
  have hK : 1 ≤ (s.midi_playlist.length : Int) := by
    have := List.length_pos.mpr h
    omega
  have hemp : s.midi_playlist.isEmpty = false := by
    simp [List.isEmpty_iff, h]
  constructor
  · intro hidx
    simp [skip_forward, play, hemp, hidx, Int.emod_self]
  · intro hidx
    have hmod : (-1 : Int) % (s.midi_playlist.length : Int)
        = (s.midi_playlist.length : Int) - 1 := by
      rw [(Int.add_mul_emod_self_left (-1) (s.midi_playlist.length : Int) 1).symm,
        show (-1 + (s.midi_playlist.length : Int) * 1) = (s.midi_playlist.length : Int) - 1
          by ring]
      exact Int.emod_eq_of_lt (by omega) (by omega)
    simp [skip_back, play, hemp, hidx, hmod]

/-- Concrete instance of C7 on a one-file playlist: both skips wrap from
index 0 back to index 0. -/
theorem claim_C7_skip_wraparound_witness :
    ({ initialState with
        midi_playlist := [⟨480, []⟩] } : AppState).midi_playlist ≠ []
    ∧ (skip_forward { initialState with midi_playlist := [⟨480, []⟩] }).current_playlist_index = 0
    ∧ (skip_back { initialState with midi_playlist := [⟨480, []⟩] }).current_playlist_index
        = (({ initialState with
              midi_playlist := [⟨480, []⟩] } : AppState).midi_playlist.length : Int) - 1 := by
  have h : ({ initialState with midi_playlist := [⟨480, []⟩] } : AppState).midi_playlist ≠ [] := by
    simp [initialState]
  have hthm := claim_C7_skip_wraparound { initialState with midi_playlist := [⟨480, []⟩] } h
  exact ⟨h, (hthm.1 (by simp [initialState])).1, (hthm.2 (by simp [initialState])).1⟩

/-! ## C4: the pause check drops routed messages outright -/

/-- C4: for every routed message (one whose address the regex matches),
if the pause flag is set when the callback reaches its pause check, the
message is dropped on the spot: the resulting state is exactly the old
state with the history buffer pruned — no MIDI message is sent, no
`SentRecord` is appended, and nothing is queued or deferred. -/
theorem claim_C4_paused_drops_message (s : AppState) (addr : List Char) (args : List OscArg)
    (now : ℚ) (ch : Int) (cmd : OscCmd)
    (hm : matchOscAddress addr = some (ch, cmd)) (hp : s.paused = true) :
    handle_osc_message s addr args now
      = ({ s with sent_messages := cleanupAt now s.sent_messages }, .droppedPaused) := by
  simp [handle_osc_message, hm, hp]

/-- Concrete instance of C4: `/ch1note [60]` arriving while paused. -/
theorem claim_C4_paused_drops_message_witness :
    matchOscAddress ['/', 'c', 'h', '1', 'n', 'o', 't', 'e'] = some (0, .note)
    ∧ ({ initialState with paused := true } : AppState).paused = true
    ∧ handle_osc_message { initialState with paused := true }
        ['/', 'c', 'h', '1', 'n', 'o', 't', 'e'] [OscArg.ofInt 60] 0
      = ({ { initialState with paused := true } with
            sent_messages :=
              cleanupAt 0 ({ initialState with paused := true } : AppState).sent_messages },
         .droppedPaused) :=
  ⟨by decide, rfl,
    claim_C4_paused_drops_message { initialState with paused := true }
      ['/', 'c', 'h', '1', 'n', 'o', 't', 'e'] [OscArg.ofInt 60] 0 0 .note (by decide) rfl⟩

/-! ## C6: the history buffer is passive -/

/-- C6: the outcome of the dispatcher callback — whether a MIDI message
is emitted and which one — is independent of the contents of the
history buffer: two states differing only in `sent_messages` produce
the same output.  The buffer is pruned and appended to, never consulted
to suppress a command. -/
theorem claim_C6_history_buffer_passive (s : AppState) (b : List SentRecord)
    (addr : List Char) (args : List OscArg) (now : ℚ) :
    (handle_osc_message { s with sent_messages := b } addr args now).2
      = (handle_osc_message s addr args now).2 := by
  unfold handle_osc_message
  cases hm : matchOscAddress addr with
  | none => rfl
  | some p =>
    obtain ⟨ch, cmd⟩ := p
    by_cases hp : s.paused
    · simp [hp]
    · simp only [hp]
      cases hb : buildAndSend s.midi_out_open ch cmd args <;> simp [hb]

/-! ## Reduction lemmas for `handle_osc_message` -/

theorem handle_osc_message_invalid (s : AppState) (addr : List Char) (args : List OscArg)
    (now : ℚ) (hm : matchOscAddress addr = none) :
    handle_osc_message s addr args now
      = ({ s with sent_messages := cleanupAt now s.sent_messages }, .invalidAddress) := by
  simp [handle_osc_message, hm]

theorem handle_osc_message_error (s : AppState) (addr : List Char) (args : List OscArg)
    (now : ℚ) (ch : Int) (cmd : OscCmd) (e : PyErr)
    (hm : matchOscAddress addr = some (ch, cmd)) (hp : s.paused = false)
    (hb : buildAndSend s.midi_out_open ch cmd args = .error e) :
    handle_osc_message s addr args now
      = ({ s with sent_messages := cleanupAt now s.sent_messages }, .errorCaught e) := by
  simp [handle_osc_message, hm, hp, hb]

theorem handle_osc_message_sent (s : AppState) (addr : List Char) (args : List OscArg)
    (now : ℚ) (ch : Int) (cmd : OscCmd) (m : MidiMsg)
    (hm : matchOscAddress addr = some (ch, cmd)) (hp : s.paused = false)
    (hb : buildAndSend s.midi_out_open ch cmd args = .ok m) :
    handle_osc_message s addr args now
      = ({ s with sent_messages := dequeAppend (cleanupAt now s.sent_messages) ⟨addr, args, (encodeMidiToOsc m).2.2, now⟩ }, .sent m) := by
  simp [handle_osc_message, hm, hp, hb]

theorem buildAndSend_ok {mo : Bool} {ch : Int} {cmd : OscCmd} {args : List OscArg} {m : MidiMsg}
    (ho : mo = true) (hb : buildMidi ch cmd args = .ok m) :
    buildAndSend mo ch cmd args = .ok m := by
  simp [buildAndSend, hb, except_bind_ok, ho]

theorem buildMidi_intArg0_error {ch : Int} (cmd : OscCmd) {args : List OscArg} {e : PyErr}
    (ha : intArg0 args = .error e) :
    buildMidi ch cmd args = .error e := by
  cases cmd <;> simp [buildMidi, ha, except_bind_error]

/-! ## C10: decoded `note` sends velocity 100, `noff` sends velocity 0 -/

/-- C10: a successfully decoded `/ch{N}note` message always produces a
`note_on` with velocity exactly 100 — the single OSC argument supplies
only the note number, the velocity is the hard-coded constant — and a
decoded `/ch{N}noff` always produces a `note_off` with velocity 0. -/
theorem claim_C10_fixed_velocities (s : AppState) (addr : List Char) (args : List OscArg)
    (now : ℚ) (ch n : Int) :
    (matchOscAddress addr = some (ch, .note) → intArg0 args = .ok n →
      midoValid (.note_on ch n 100) = true → s.paused = false → s.midi_out_open = true →
      (handle_osc_message s addr args now).2 = .sent (.note_on ch n 100))
    ∧ (matchOscAddress addr = some (ch, .noff) → intArg0 args = .ok n →
      midoValid (.note_off ch n 0) = true → s.paused = false → s.midi_out_open = true →
      (handle_osc_message s addr args now).2 = .sent (.note_off ch n 0)) := by
  constructor
  · intro hm ha hok hp ho
    have hb : buildMidi ch .note args = .ok (.note_on ch n 100) := by
      simp [buildMidi, ha, except_bind_ok, mkMessage, hok]
    rw [handle_osc_message_sent s addr args now ch .note _ hm hp (buildAndSend_ok ho hb)]
  · intro hm ha hok hp ho
    have hb : buildMidi ch .noff args = .ok (.note_off ch n 0) := by
      simp [buildMidi, ha, except_bind_ok, mkMessage, hok]
    rw [handle_osc_message_sent s addr args now ch .noff _ hm hp (buildAndSend_ok ho hb)]

/-- Concrete instance of C10: `/ch1note [61]` sends velocity 100 even
though the argument is 61, and `/ch1noff [61]` sends velocity 0. -/
theorem claim_C10_fixed_velocities_witness :
    (handle_osc_message { initialState with midi_out_open := true }
        ['/', 'c', 'h', '1', 'n', 'o', 't', 'e'] [OscArg.ofInt 61] 0).2
      = .sent (.note_on 0 61 100)
    ∧ (handle_osc_message { initialState with midi_out_open := true }
        ['/', 'c', 'h', '1', 'n', 'o', 'f', 'f'] [OscArg.ofInt 61] 0).2
      = .sent (.note_off 0 61 0) :=
  ⟨(claim_C10_fixed_velocities { initialState with midi_out_open := true }
      ['/', 'c', 'h', '1', 'n', 'o', 't', 'e'] [OscArg.ofInt 61] 0 0 61).1
      (by decide) rfl (by decide) rfl rfl,
   (claim_C10_fixed_velocities { initialState with midi_out_open := true }
      ['/', 'c', 'h', '1', 'n', 'o', 'f', 'f'] [OscArg.ofInt 61] 0 0 61).2
      (by decide) rfl (by decide) rfl rfl⟩

/-! ## C5: unmatched or malformed messages are recoverable drops — corrected -/

/-- C5 counterexample: the claim says a recognized address whose
arguments have the wrong count or type yields a logged drop.  Both
halves fail in a running unpaused session: Python's `int()` accepts the
*string* `"60"`, so `/ch1note` with the wrongly typed argument `"60"`
is **dispatched** as `note_on` note 60 velocity 100; and `/ch1note`
with the wrong argument count `(60, 70)` is likewise dispatched from
`args[0]` (outcome `.sent`, not a drop, in either case). -/
theorem claim_C5_unrecognized_counterexample :
    (handle_osc_message { initialState with midi_out_open := true }
        ['/', 'c', 'h', '1', 'n', 'o', 't', 'e'] [OscArg.ofStr ['6', '0']] 0).2
      = .sent (.note_on 0 60 100)
    ∧ (handle_osc_message { initialState with midi_out_open := true }
        ['/', 'c', 'h', '1', 'n', 'o', 't', 'e'] [OscArg.ofInt 60, OscArg.ofInt 70] 0).2
      = .sent (.note_on 0 60 100) := by decide

/-- The try block reads the argument tuple only through `args[0]`. -/
theorem buildMidi_first_arg (ch : Int) (cmd : OscCmd) (a : OscArg) (rest : List OscArg) :
    buildMidi ch cmd (a :: rest) = buildMidi ch cmd [a] := by
  cases cmd <;> rfl

/-- C5 (amended): every input string the regex does not match is an
explicit `invalidAddress` outcome — logged, dropped, never an
exception to the caller.  For a matching address, a missing argument
(empty argument tuple, `IndexError`) or a first argument on which
`int()` coercion fails (`ValueError`) is a caught-and-logged drop of
that single message (`errorCaught`), not a fatal error.  Wrong argument
count or type does not otherwise cause a drop: the dispatch outcome
depends only on `args[0]`, so surplus arguments are ignored, and a
wrongly typed first argument whose value is integer-coercible (such as
the string `"60"`) is converted and dispatched rather than dropped. -/
theorem claim_C5_amended_unrecognized_drops (s : AppState) (addr : List Char)
    (args : List OscArg) (now : ℚ) :
    (matchOscAddress addr = none →
      handle_osc_message s addr args now
        = ({ s with sent_messages := cleanupAt now s.sent_messages }, .invalidAddress))
    ∧ (∀ ch cmd e, matchOscAddress addr = some (ch, cmd) → s.paused = false →
        intArg0 args = .error e →
        handle_osc_message s addr args now
          = ({ s with sent_messages := cleanupAt now s.sent_messages }, .errorCaught e))
    ∧ (∀ a rest, args = a :: rest →
        (handle_osc_message s addr args now).2
          = (handle_osc_message s addr [a] now).2) := by
  refine ⟨?_, ?_, ?_⟩
  · intro hm
    exact handle_osc_message_invalid s addr args now hm
  · intro ch cmd e hm hp ha
    refine handle_osc_message_error s addr args now ch cmd e hm hp ?_
    simp [buildAndSend, buildMidi_intArg0_error cmd ha, except_bind_error]
  · intro a rest ha
    subst ha
    unfold handle_osc_message
    cases hm : matchOscAddress addr with
    | none => rfl
    | some p =>
      obtain ⟨ch, cmd⟩ := p
      by_cases hp : s.paused
      · simp [hp]
      · simp only [hp]
        have hb : buildAndSend s.midi_out_open ch cmd (a :: rest)
            = buildAndSend s.midi_out_open ch cmd [a] := by
          unfold buildAndSend
          rw [buildMidi_first_arg]
        rw [hb]
        cases hc : buildAndSend s.midi_out_open ch cmd [a] <;> simp [hc]

/-- Concrete instances of the amended C5: `/foo` is an invalid-address
drop, `/ch1note` with no argument at all is a caught `IndexError`
drop, and with arguments `(60, 70)` the outcome equals that with the
single argument `60`. -/
theorem claim_C5_amended_unrecognized_drops_witness :
    handle_osc_message initialState ['/', 'f', 'o', 'o'] [] 0
      = ({ initialState with sent_messages := cleanupAt 0 initialState.sent_messages },
         .invalidAddress)
    ∧ handle_osc_message initialState ['/', 'c', 'h', '1', 'n', 'o', 't', 'e'] [] 0
      = ({ initialState with sent_messages := cleanupAt 0 initialState.sent_messages },
         .errorCaught .indexError)
    ∧ (handle_osc_message initialState ['/', 'c', 'h', '1', 'n', 'o', 't', 'e']
          [OscArg.ofInt 60, OscArg.ofInt 70] 0).2
      = (handle_osc_message initialState ['/', 'c', 'h', '1', 'n', 'o', 't', 'e']
          [OscArg.ofInt 60] 0).2 :=
  ⟨(claim_C5_amended_unrecognized_drops initialState ['/', 'f', 'o', 'o'] [] 0).1 (by decide),
   (claim_C5_amended_unrecognized_drops initialState
      ['/', 'c', 'h', '1', 'n', 'o', 't', 'e'] [] 0).2.1 0 .note .indexError (by decide) rfl rfl,
   (claim_C5_amended_unrecognized_drops initialState
      ['/', 'c', 'h', '1', 'n', 'o', 't', 'e'] [OscArg.ofInt 60, OscArg.ofInt 70] 0).2.2
      (OscArg.ofInt 60) [OscArg.ofInt 70] rfl⟩

/-! ## C2: reset-tempo adopts the first tempo meta-event in track order -/

theorem findTempoInTrack_eq (tr : List TrackEvent) :
    findTempoInTrack tr
      = (tr.filterMap (fun e => match e.body with
          | .setTempo t => some t
          | _ => none)).head? := by
  induction tr with
  | nil => rfl
  | cons e rest ih =>
    cases hb : e.body <;> simp [findTempoInTrack, hb, List.filterMap_cons, ih]

/-- The nested scan of `reset_tempo` computes exactly the spec-side
"first tempo meta-event found in track order". -/
theorem findFirstTempo_eq (tracks : List (List TrackEvent)) :
    findFirstTempo tracks = firstTempoSpec tracks := by
  induction tracks with
  | nil => rfl
  | cons tr rest ih =>
    have hspec : firstTempoSpec (tr :: rest)
        = ((tr.filterMap (fun e => match e.body with
            | TrackMsg.setTempo t => some t
            | _ => none)).head?).or (firstTempoSpec rest) := by
      simp [firstTempoSpec, List.filterMap_append, List.head?_append]
    rw [hspec]
    cases h : findTempoInTrack tr with
    | some t =>
      have h2 := h
      rw [findTempoInTrack_eq] at h2
      simp [findFirstTempo, h, h2]
    | none =>
      have h2 := h
      rw [findTempoInTrack_eq] at h2
      simp [findFirstTempo, h, h2, ih]

/-- C2 counterexample: the claim says the found event's
microseconds-per-beat is adopted *with BPM derived from it*.  With a
first `set_tempo` carrying tempo 0 that derivation never happens: the
code assigns `tempo_microseconds_per_beat = 0` and then
`int(60000000 / 0)` raises `ZeroDivisionError`, caught by the
surrounding handler — the BPM stays at its previous value (77 here,
which is not derived from the adopted tempo), falsifying the claim at
this input. -/
theorem claim_C2_reset_tempo_counterexample :
    (reset_tempo { initialState with tempo := 77, midi_playlist := [⟨480, [[⟨0, TrackMsg.setTempo 0⟩]]⟩] }).tempo_microseconds_per_beat = 0
    ∧ (reset_tempo { initialState with tempo := 77, midi_playlist := [⟨480, [[⟨0, TrackMsg.setTempo 0⟩]]⟩] }).tempo = 77 := by
  decide

/-- C2 (amended): with a non-empty playlist, if the first file has a
tempo meta-event then `reset_tempo` leaves `tempo_microseconds_per_beat`
equal to the microseconds-per-beat of the first such event in track
order, and, when that value is nonzero, the BPM derived from it
(`int(60000000 / tempo)`); when that value is zero, the BPM derivation
raises (`ZeroDivisionError`, caught) and the previous BPM is left in
place.  If the first file has no tempo event, it leaves exactly 120 BPM
and 500000 µs per beat. -/
theorem claim_C2_reset_tempo_first_event (s : AppState) (f : MidiFileData)
    (rest : List MidiFileData) (h : s.midi_playlist = f :: rest) :
    (∀ t, firstTempoSpec f.tracks = some t →
      (reset_tempo s).tempo_microseconds_per_beat = (t : ℚ)
      ∧ (t ≠ 0 → (reset_tempo s).tempo = ((60000000 / t : Nat) : Int))
      ∧ (t = 0 → (reset_tempo s).tempo = s.tempo))
    ∧ (firstTempoSpec f.tracks = none →
      (reset_tempo s).tempo = 120
      ∧ (reset_tempo s).tempo_microseconds_per_beat = 500000) := by
  constructor
  · intro t ht
    rw [← findFirstTempo_eq] at ht
    by_cases h0 : t = 0
    · subst h0
      exact ⟨by simp [reset_tempo, h, ht], fun hne => absurd rfl hne,
        fun _ => by simp [reset_tempo, h, ht]⟩
    · exact ⟨by simp [reset_tempo, h, ht, h0],
        fun _ => by simp [reset_tempo, h, ht, h0],
        fun h0x => absurd h0x h0⟩
  · intro ht
    rw [← findFirstTempo_eq] at ht
    simp [reset_tempo, h, ht]

/-- Concrete instance of C2: a one-file playlist whose first track's
first tempo event carries 650000 µs per beat; the BPM becomes
`int(60000000 / 650000)`. -/
theorem claim_C2_reset_tempo_first_event_witness :
    ({ initialState with
        midi_playlist := [⟨480, [[⟨0, TrackMsg.setTempo 650000⟩]]⟩] } : AppState).midi_playlist
      = ⟨480, [[⟨0, TrackMsg.setTempo 650000⟩]]⟩ :: []
    ∧ firstTempoSpec (⟨480, [[⟨0, TrackMsg.setTempo 650000⟩]]⟩ : MidiFileData).tracks
      = some 650000
    ∧ (reset_tempo { initialState with
        midi_playlist := [⟨480, [[⟨0, TrackMsg.setTempo 650000⟩]]⟩] }).tempo_microseconds_per_beat
      = ((650000 : Nat) : ℚ)
    ∧ (reset_tempo { initialState with
        midi_playlist := [⟨480, [[⟨0, TrackMsg.setTempo 650000⟩]]⟩] }).tempo
      = ((60000000 / 650000 : Nat) : Int) :=
  ⟨rfl, by decide,
    ((claim_C2_reset_tempo_first_event _ _ _ rfl).1 650000 (by decide)).1,
    ((claim_C2_reset_tempo_first_event _ _ _ rfl).1 650000 (by decide)).2.1 (by decide)⟩

/-! ## C3: history buffer bounds -/

theorem cleanupAt_sublist (now : ℚ) (buf : List SentRecord) :
    List.Sublist (cleanupAt now buf) buf :=
  List.dropWhile_sublist _

theorem cleanupAt_fresh (now : ℚ) (buf : List SentRecord)
    (hs : buf.Pairwise (fun a b => a.emittedAt ≤ b.emittedAt)) :
    ∀ x ∈ cleanupAt now buf, now - x.emittedAt ≤ 1 / 10 := by
  induction buf with
  | nil => simp [cleanupAt]
  | cons a l ih =>
    rw [List.pairwise_cons] at hs
    obtain ⟨ha, hl⟩ := hs
    intro x hx
    rw [cleanupAt, List.dropWhile_cons] at hx
    cases hd : decide ((1 : ℚ) / 10 < now - a.emittedAt) with
    | true =>
      rw [hd, if_pos rfl] at hx
      exact ih hl x hx
    | false =>
      rw [hd, if_neg (by simp)] at hx
      have hna : ¬ ((1 : ℚ) / 10 < now - a.emittedAt) := of_decide_eq_false hd
      rcases List.mem_cons.mp hx with hxa | hxl
      · subst hxa; linarith [not_lt.mp hna]
      · have := ha x hxl
        linarith [not_lt.mp hna]

theorem dequeAppend_length_le (buf : List SentRecord) (r : SentRecord)
    (hlen : buf.length ≤ 100) :
    (dequeAppend buf r).length ≤ 100 := by
  unfold dequeAppend
  by_cases h : buf.length < 100 <;>
    simp [h, List.length_append, List.length_drop] <;> omega

theorem dequeAppend_pairwise (buf : List SentRecord) (r : SentRecord)
    (hs : buf.Pairwise (fun a b => a.emittedAt ≤ b.emittedAt))
    (hr : ∀ x ∈ buf, x.emittedAt ≤ r.emittedAt) :
    (dequeAppend buf r).Pairwise (fun a b => a.emittedAt ≤ b.emittedAt) := by
  unfold dequeAppend
  by_cases h : buf.length < 100
  · rw [if_pos h, List.pairwise_append]
    refine ⟨hs, List.pairwise_singleton _ _, ?_⟩
    intro a ha b hb
    rw [List.mem_singleton] at hb
    subst hb
    exact hr a ha
  · rw [if_neg h, List.pairwise_append]
    refine ⟨hs.sublist (List.drop_sublist 1 buf), List.pairwise_singleton _ _, ?_⟩
    intro a ha b hb
    rw [List.mem_singleton] at hb
    subst hb
    exact hr a ((List.drop_sublist 1 buf).subset ha)

/-- Every path through the dispatcher callback leaves the buffer either
just pruned, or pruned and then appended to once. -/
theorem handle_osc_message_buffer (s : AppState) (addr : List Char) (args : List OscArg)
    (now : ℚ) :
    (handle_osc_message s addr args now).1.sent_messages = cleanupAt now s.sent_messages
    ∨ ∃ rec, (handle_osc_message s addr args now).1.sent_messages
        = dequeAppend (cleanupAt now s.sent_messages) rec := by
  unfold handle_osc_message
  cases hm : matchOscAddress addr with
  | none => left; rfl
  | some p =>
    obtain ⟨ch, cmd⟩ := p
    by_cases hp : s.paused
    · left; simp [hp]
    · simp only [hp]
      cases hb : buildAndSend s.midi_out_open ch cmd args with
      | error e => left; simp [hb]
      | ok m =>
        right
        exact ⟨⟨addr, args, (encodeMidiToOsc m).2.2, now⟩, by simp [hb]⟩

/-- C3: the history buffer invariant.  With a buffer of at most 100
records whose timestamps are nondecreasing (each record is stamped with
the clock at its append) and a new record stamped no earlier than the
existing ones: the `deque(maxlen=100)` append keeps at most 100 records
and keeps timestamps nondecreasing; the sweep (the shared eviction loop
of the 50 ms timer and of the inline pre-dispatch pruning) keeps both,
and after it no retained record is more than 100 ms (1/10 s) older than
the sweep time; and the dispatcher callback, whose every path prunes
and appends at most once, also leaves at most 100 records. -/
theorem claim_C3_history_buffer_invariant (buf : List SentRecord) (r : SentRecord) (now : ℚ)
    (hlen : buf.length ≤ 100)
    (hsorted : buf.Pairwise (fun a b => a.emittedAt ≤ b.emittedAt))
    (hr : ∀ x ∈ buf, x.emittedAt ≤ r.emittedAt) :
    (dequeAppend buf r).length ≤ 100
    ∧ (dequeAppend buf r).Pairwise (fun a b => a.emittedAt ≤ b.emittedAt)
    ∧ (cleanupAt now buf).length ≤ 100
    ∧ (cleanupAt now buf).Pairwise (fun a b => a.emittedAt ≤ b.emittedAt)
    ∧ (∀ x ∈ cleanupAt now buf, now - x.emittedAt ≤ 1 / 10)
    ∧ (∀ (s : AppState) (addr : List Char) (args : List OscArg),
        s.sent_messages = buf →
        (handle_osc_message s addr args now).1.sent_messages.length ≤ 100) := by
  have hclen : (cleanupAt now buf).length ≤ 100 :=
    le_trans (cleanupAt_sublist now buf).length_le hlen
  have hcsort : (cleanupAt now buf).Pairwise (fun a b => a.emittedAt ≤ b.emittedAt) :=
    hsorted.sublist (cleanupAt_sublist now buf)
  refine ⟨dequeAppend_length_le buf r hlen, dequeAppend_pairwise buf r hsorted hr,
    hclen, hcsort, cleanupAt_fresh now buf hsorted, ?_⟩
  intro s addr args hs
  rcases handle_osc_message_buffer s addr args now with h | ⟨rec, h⟩ <;> rw [h, hs]
  · exact hclen
  · exact dequeAppend_length_le _ rec hclen

/-- Concrete instance of C3: two records and an append, with a sweep;
the append stays within bounds and after the sweep every retained
record is within 100 ms of sweep time. -/
theorem claim_C3_history_buffer_invariant_witness :
    (dequeAppend [⟨[], [], [], 0⟩, ⟨[], [], [], 0⟩] ⟨[], [], [], 0⟩).length ≤ 100
    ∧ (∀ x ∈ cleanupAt 0 [⟨[], [], [], 0⟩, ⟨[], [], [], 0⟩],
        (0 : ℚ) - x.emittedAt ≤ 1 / 10) :=
  ⟨(claim_C3_history_buffer_invariant [⟨[], [], [], 0⟩, ⟨[], [], [], 0⟩]
      ⟨[], [], [], 0⟩ 0 (by decide) (by decide) (by decide)).1,
   (claim_C3_history_buffer_invariant [⟨[], [], [], 0⟩, ⟨[], [], [], 0⟩]
      ⟨[], [], [], 0⟩ 0 (by decide) (by decide) (by decide)).2.2.2.2.1⟩

/-! ## C8: the track merge is sorted by tick, and the sort is stable -/

theorem filter_orderedInsert (t : Nat) (x : Nat × TrackMsg) (L : List (Nat × TrackMsg)) :
    (List.orderedInsert tickLE x L).filter (fun e => e.1 == t)
      = (x :: L).filter (fun e => e.1 == t) := by
  induction L with
  | nil => simp [List.orderedInsert]
  | cons b L ih =>
    by_cases h : tickLE x b
    · rw [List.orderedInsert, if_pos h]
    · rw [List.orderedInsert, if_neg h]
      by_cases hb : b.1 = t
      · have hx : ¬ x.1 = t := by
          simp only [tickLE, not_le] at h
          omega
        simp [List.filter_cons, hb, hx, ih]
      · simp [List.filter_cons, hb, ih]

/-- Stability of the modeled sort: elements at any fixed tick appear in
the output in exactly their input order. -/
theorem filter_insertionSort (t : Nat) (l : List (Nat × TrackMsg)) :
    (List.insertionSort tickLE l).filter (fun e => e.1 == t)
      = l.filter (fun e => e.1 == t) := by
  induction l with
  | nil => rfl
  | cons x l ih =>
    rw [List.insertionSort, filter_orderedInsert]
    simp [List.filter_cons, ih]

/-- C8: the merge step of `_play_single_midi` produces a permutation of
all tracks' (absolute tick, event) pairs that is sorted by tick in
nondecreasing order, and the sort is stable: for every tick value, the
events at that tick appear in exactly the order of `collectMessages`
(tracks in encounter order, and within one track original order). -/
theorem claim_C8_merge_sorted_stable (tracks : List (List TrackEvent)) :
    (mergeTracks tracks).Pairwise tickLE
    ∧ (∀ t : Nat, (mergeTracks tracks).filter (fun e => e.1 == t)
        = (collectMessages tracks).filter (fun e => e.1 == t))
    ∧ (mergeTracks tracks).Perm (collectMessages tracks) := by
  refine ⟨List.sorted_insertionSort tickLE _, ?_, List.perm_insertionSort tickLE _⟩
  intro t
  exact filter_insertionSort t _

end OscPlease
